import Mathlib

/-!
Verification of the multi-strategy supervisor core (`strategy_manager`).

This file shallowly embeds the data model and operations of the repository:

* `StrategyConfig` / `StrategyConfig.get_hash` and `MultiStrategyOrchestrator`'s
  reconciliation (`sync_workers`, `_start_worker`, `_stop_worker`,
  `load_configurations`, `_monitor_loop`, `stop_all`) from
  `src/strategy_manager/core/multi_strategy_orchestrator.py`;
* `SymbolLogFilter.filter` from `src/strategy_manager/log_handlers.py`,
  including the exact behaviour of Python's `re.findall` on a pattern with a
  capture group;
* `LogStreamServer` (bounded replay buffer plus fan-out) from
  `src/strategy_manager/log_stream_server.py`;
* `LifecycleManager.run`'s daily edge events from
  `src/strategy_manager/core/lifecycle_manager.py`;
* the `_state` assignments of `VnpyWorkerAdapter.run`/`stop` from
  `src/strategy_manager/adapters/vnpy_adapter.py`.

Python dictionaries are modelled as association lists in insertion order;
external effects (the Mongo store raising, a worker factory/`start` raising,
`worker.stop` raising) are modelled by boolean oracles in an environment
record, so that every behaviour the `try/except` blocks of the source can
observe is a choice of oracle.
-/

namespace StrategyManager

/-! ### Association-list maps (Python `dict` with string keys)

A Python `dict` keeps insertion order; assigning to an existing key keeps its
position, assigning a fresh key appends, `del` removes the entry. -/

/-- `m.get(k)` on a Python dict modelled as an association list. -/
def lookupS {V : Type} : List (String × V) → String → Option V
  | [], _ => none
  | (k', v) :: t, k => if k' = k then some v else lookupS t k

/-- `k in m` on a Python dict. -/
def hasKeyS {V : Type} (m : List (String × V)) (k : String) : Bool :=
  (lookupS m k).isSome

/-- `m[k] = v` on a Python dict: update in place, or append a fresh key. -/
def insertS {V : Type} : List (String × V) → String → V → List (String × V)
  | [], k, v => [(k, v)]
  | (k', v') :: t, k, v =>
    if k' = k then (k, v) :: t else (k', v') :: insertS t k v

/-- `del m[k]` on a Python dict. -/
def eraseS {V : Type} (m : List (String × V)) (k : String) : List (String × V) :=
  m.filter (fun p => decide (p.1 ≠ k))

/-- `m.keys()` on a Python dict (in insertion order). -/
def keysS {V : Type} (m : List (String × V)) : List String :=
  m.map Prod.fst

/-! ### `StrategyConfig` and its content hash
(`multi_strategy_orchestrator.py`, lines 19-64) -/

/-- A scalar JSON value as it occurs in a `params` document
(floats are outside the scope of this embedding). -/
inductive PValue
  | pnull
  | pbool (b : Bool)
  | pint (n : Int)
  | pstr (s : String)
deriving DecidableEq, Repr

/-- `StrategyConfig` dataclass (lines 19-29). `params` is the opaque
parameter map, modelled as an association list of scalar values. -/
structure StrategyConfig where
  symbol : String
  strategy_key : String
  params : List (String × PValue)
  enabled : Bool
  user_id : Option String := none
  engine : String := "backtrader"
  engine_class : Option String := none
deriving DecidableEq, Repr

/-- `json.dumps(..., sort_keys=True)` serializes the `params` dict with its
keys in sorted order; this is that canonical reordering. -/
def sortParams (l : List (String × PValue)) : List (String × PValue) :=
  List.insertionSort (fun a b => a.1 ≤ b.1) l

/-- The content that `StrategyConfig.get_hash` (lines 45-64) feeds to
`hashlib.sha256`: the seven fields, with every dict in canonical (sorted-key)
order.  The code uses the SHA-256 digest of the canonical JSON text only in
equality tests; we model the digest by its canonical preimage, since
`json.dumps(..., sort_keys=True)` renders this data injectively and digest
equality is the code's proxy for equality of that text. -/
structure ConfigHash where
  symbol : String
  strategy_key : String
  params : List (String × PValue)
  enabled : Bool
  user_id : Option String
  engine : String
  engine_class : Option String
deriving DecidableEq, Repr

/-- `StrategyConfig.get_hash` (lines 45-64). -/
def StrategyConfig.get_hash (c : StrategyConfig) : ConfigHash :=
  { symbol := c.symbol
    strategy_key := c.strategy_key
    params := sortParams c.params
    enabled := c.enabled
    user_id := c.user_id
    engine := c.engine
    engine_class := c.engine_class }

/-! ### Orchestrator state and reconciliation
(`multi_strategy_orchestrator.py`, lines 67-401) -/

/-- A live worker as the orchestrator sees it: the key and config it was
constructed from, plus a creation serial number (`wid`) so that a recreated
worker is distinguishable from the one it replaces. -/
structure Worker where
  wid : Nat
  key : String
  config : StrategyConfig
deriving DecidableEq, Repr

/-- Orchestrator state: `self.workers`, `self.configurations`, and the
serial-number source for freshly constructed workers. -/
structure Orch where
  workers : List (String × Worker)
  configurations : List (String × StrategyConfig)
  nextId : Nat
deriving Repr

/-- The failure environment: which `worker.stop()`/`join` calls raise, and
for which keys `_start_worker` fails (no factory for the engine, unresolvable
`engine_class`, or the factory/`load_state`/`start` call raising).  Oracles
are keyed by worker key, so retries of the same key behave the same. -/
structure Env where
  stopFails : String → Bool
  startFails : String → Bool

/-- `_stop_worker` (lines 305-317): missing key is a no-op; if
`worker.stop`/`join` raises, the exception is logged and `del
self.workers[key]` is never reached, so the entry survives. -/
def stopWorker (env : Env) (st : Orch) (key : String) : Orch :=
  match lookupS st.workers key with
  | none => st
  | some _ =>
    if env.stopFails key then st
    else { st with workers := eraseS st.workers key }

/-- `_start_worker` (lines 249-303): on any failure the worker is skipped
(logged); on success a fresh worker is inserted under `key`. -/
def startWorker (env : Env) (st : Orch) (key : String) (config : StrategyConfig) : Orch :=
  if env.startFails key then st
  else
    { st with
      workers := insertS st.workers key (Worker.mk st.nextId key config)
      nextId := st.nextId + 1 }

/-- One step of the start loop of `sync_workers` (lines 239-242):
`config = self.configurations[key]; self._start_worker(key, config)`. -/
def startOne (env : Env) (newConfigs : List (String × StrategyConfig))
    (st : Orch) (key : String) : Orch :=
  match lookupS newConfigs key with
  | some c => startWorker env st key c
  | none => st

/-- `to_stop = current_keys - target_keys` (line 205). -/
def syncToStop (st : Orch) (newConfigs : List (String × StrategyConfig)) : List String :=
  (keysS st.workers).filter (fun k => !(hasKeyS newConfigs k))

/-- The hash comparison of lines 215-223: a common key is restarted iff both
the old and the new config are present and their content hashes differ. -/
def configChanged (old new : List (String × StrategyConfig)) (k : String) : Bool :=
  match lookupS old k, lookupS new k with
  | some oldc, some newc => decide (oldc.get_hash ≠ newc.get_hash)
  | _, _ => false

/-- `to_restart` (lines 212-223): keys running now, present in the target,
with a changed config hash. -/
def syncToRestart (st : Orch) (newConfigs : List (String × StrategyConfig)) : List String :=
  (keysS st.workers).filter
    (fun k => hasKeyS newConfigs k && configChanged st.configurations newConfigs k)

/-- The per-call counters that `sync_workers` logs on line 244-247. -/
structure SyncStats where
  stopped : Nat
  restarted : Nat
  started : Nat
deriving DecidableEq, Repr

/-- State after step 1 of `sync_workers` (lines 204-208): removed workers
stopped. -/
def syncSt1 (env : Env) (st : Orch) (newConfigs : List (String × StrategyConfig)) : Orch :=
  (syncToStop st newConfigs).foldl (stopWorker env) st

/-- State after step 2 (lines 225-226): modified workers stopped. -/
def syncSt2 (env : Env) (st : Orch) (newConfigs : List (String × StrategyConfig)) : Orch :=
  (syncToRestart st newConfigs).foldl (stopWorker env) (syncSt1 env st newConfigs)

/-- State after `self.configurations = new_configs` (line 232). -/
def syncSt3 (env : Env) (st : Orch) (newConfigs : List (String × StrategyConfig)) : Orch :=
  { syncSt2 env st newConfigs with configurations := newConfigs }

/-- `to_start = target_keys - running_keys` (lines 236-237), recomputed from
the post-stop worker map. -/
def syncToStart (env : Env) (st : Orch) (newConfigs : List (String × StrategyConfig)) :
    List String :=
  (keysS newConfigs).filter (fun k => !(hasKeyS (syncSt3 env st newConfigs).workers k))

/-- `sync_workers` (lines 191-247): stop removed workers, stop modified
workers, replace `self.configurations`, then start every target key that is
not running. -/
def syncWorkers (env : Env) (st : Orch)
    (newConfigs : List (String × StrategyConfig)) : Orch × SyncStats :=
  ((syncToStart env st newConfigs).foldl (startOne env newConfigs) (syncSt3 env st newConfigs),
   { stopped := (syncToStop st newConfigs).length
     restarted := (syncToRestart st newConfigs).length
     started := (syncToStart env st newConfigs).length })

/-! ### Configuration loading and the hot-reload tick
(`multi_strategy_orchestrator.py`, lines 143-189, 335-386) -/

/-- A raw document of the configuration collection; `none` models a missing
or `null` field. -/
structure DbDoc where
  symbol : Option String := none
  strategy_key : Option String := none
  params : Option (List (String × PValue)) := none
  enabled : Option Bool := none
  user_id : Option String := none
  engine : Option String := none
  engine_class : Option String := none
deriving DecidableEq, Repr

/-- `StrategyConfig.from_db_doc` (lines 31-43).  `str(x)` is the identity on
the strings this collection stores, and a `None`/missing `user_id` stays
`None`. -/
def StrategyConfig.from_db_doc (doc : DbDoc) : StrategyConfig :=
  { symbol := doc.symbol.getD ""
    strategy_key := doc.strategy_key.getD ""
    params := doc.params.getD []
    enabled := doc.enabled.getD true
    user_id := doc.user_id
    engine := doc.engine.getD "backtrader"
    engine_class := doc.engine_class }

/-- Python's `f"{x}"` rendering of an `Optional[str]`: the literal `"None"`
for `None`. -/
def pyStr : Option String → String
  | none => "None"
  | some s => s

/-- The worker key `f"{config.user_id}_{config.symbol}_{config.strategy_key}"`
built on line 173 of `load_configurations`. -/
def workerKey (c : StrategyConfig) : String :=
  pyStr c.user_id ++ "_" ++ c.symbol ++ "_" ++ c.strategy_key

/-- The worker key `f"{worker.user_id}_{worker.symbol}_{worker.strategy_key}"`
built by `LifecycleManager.add_worker` (`lifecycle_manager.py`, line 100). -/
def addWorkerKey (user_id : Option String) (symbol strategy_key : String) : String :=
  pyStr user_id ++ "_" ++ symbol ++ "_" ++ strategy_key

/-- The Mongo selector of lines 152-154: `{"enabled": True}`, ANDed with
`user_id` when the orchestrator's `user_id` is truthy (a non-empty string). -/
def queryMatch (userFilter : Option String) (doc : DbDoc) : Bool :=
  doc.enabled == some true &&
    (match userFilter with
     | none => true
     | some u => if u = "" then true else doc.user_id == some u)

/-- `load_configurations` (lines 143-189).  `factories` tells which engines
have a registered worker factory; `loadFails` is the oracle for the store
raising, in which case the method logs and returns `{}` (line 187-189). -/
def loadConfigurations (loadFails : Bool) (factories : String → Bool)
    (userFilter : Option String) (docs : List DbDoc) :
    List (String × StrategyConfig) :=
  if loadFails then []
  else
    (docs.filter (queryMatch userFilter)).foldl
      (fun acc doc =>
        let config := StrategyConfig.from_db_doc doc
        if config.symbol = "" || config.strategy_key = "" then acc
        else if !(factories config.engine) then acc
        else insertS acc (workerKey config) config)
      []

/-- One iteration of `_monitor_loop` (lines 357-372): reload the configs and
hand the result (possibly `{}` after a load failure) to `sync_workers`. -/
def monitorTick (env : Env) (loadFails : Bool) (factories : String → Bool)
    (userFilter : Option String) (docs : List DbDoc) (st : Orch) : Orch :=
  (syncWorkers env st (loadConfigurations loadFails factories userFilter docs)).1

/-- `stop_all` (lines 374-386): stop every worker in the current set;
`self.configurations` is untouched. -/
def stopAll (env : Env) (st : Orch) : Orch :=
  (keysS st.workers).foldl (stopWorker env) st

/-- The public operations whose stable points claim C5 ranges over. -/
inductive OrchOp
  | syncOp (newConfigs : List (String × StrategyConfig))
  | startAllOp (loadFails : Bool) (userFilter : Option String) (docs : List DbDoc)
  | stopAllOp

/-- Run one public operation.  `start_all` (lines 335-355) is
`load_configurations` followed by `sync_workers`. -/
def applyOp (env : Env) (factories : String → Bool) (st : Orch) : OrchOp → Orch
  | OrchOp.syncOp newConfigs => (syncWorkers env st newConfigs).1
  | OrchOp.startAllOp loadFails userFilter docs =>
    (syncWorkers env st (loadConfigurations loadFails factories userFilter docs)).1
  | OrchOp.stopAllOp => stopAll env st

/-- Invariant 1 of the spec: every running key has a configuration entry. -/
def OrchInv (st : Orch) : Prop :=
  ∀ k, hasKeyS st.workers k = true → hasKeyS st.configurations k = true

/-! ### The per-worker log attribution filter
(`log_handlers.py`, lines 14-61) -/

/-- The two fields of a `logging.LogRecord` that `SymbolLogFilter.filter`
reads: `record.name` and `record.getMessage()`. -/
structure LogRecord where
  name : String
  message : String
deriving DecidableEq, Repr

/-- `SymbolLogFilter` (lines 14-29). -/
structure SymbolLogFilter where
  user_id : String
  strategy_key : String
  symbol : String
deriving DecidableEq, Repr

/-- Python's substring test `needle in hay`. -/
def strContains (hay needle : String) : Bool :=
  decide (needle.data <:+: hay.data)

/-- Try to match the regex `\d{6}\.(SZ|SH|BJ)` at the start of `l`; on
success return what `re.findall` collects for it — the text of the capture
group `(SZ|SH|BJ)`, not the whole nine-character match. -/
def stockCodeAt (l : List Char) : Option String :=
  match l.take 9 with
  | [d1, d2, d3, d4, d5, d6, dot, x, y] =>
    if d1.isDigit && d2.isDigit && d3.isDigit && d4.isDigit && d5.isDigit &&
        d6.isDigit && dot = '.' then
      if x = 'S' && y = 'Z' then some "SZ"
      else if x = 'S' && y = 'H' then some "SH"
      else if x = 'B' && y = 'J' then some "BJ"
      else none
    else none
  | _ => none

/-- Scanner for `re.findall`: `skip` counts characters still covered by the
previous nine-character match (matches do not overlap). -/
def findStockCodesGo : Nat → List Char → List String
  | _, [] => []
  | Nat.succ n, _ :: rest => findStockCodesGo n rest
  | 0, c :: rest =>
    match stockCodeAt (c :: rest) with
    | some g => g :: findStockCodesGo 8 rest
    | none => findStockCodesGo 0 rest

/-- `re.findall(r'\d{6}\.(SZ|SH|BJ)', message)` (line 49): scan left to
right, collecting the capture group of each non-overlapping match (each match
spans nine characters). -/
def findStockCodes (l : List Char) : List String :=
  findStockCodesGo 0 l

/-- `SymbolLogFilter.filter` (lines 31-61). -/
def SymbolLogFilter.filter (f : SymbolLogFilter) (record : LogRecord) : Bool :=
  let logger_name := record.name
  let message := record.message
  if strContains logger_name f.symbol then true
  else
    let stock_codes := findStockCodes message.data
    if !stock_codes.isEmpty then
      if f.symbol ∈ stock_codes then true else false
    else true

/-! ### Lifecycle manager daily edge events
(`lifecycle_manager.py`, lines 18-178) -/

/-- `LifecycleEvent` (lines 18-24). The loop of `run` marks three of them:
`pre_market_open` for the pre-open recreate, `post_market_close` for the
post-close stop, and `market_close` for the 15:10 cleanup. -/
inductive LifecycleEvent
  | pre_market_open
  | market_open
  | pre_market_close
  | market_close
  | post_market_close
deriving DecidableEq, Repr

/-- A wall-clock sample as the loop reads it: `date` is a day index (with
`weekday = date % 7`, Monday = 0, as for Python's `date.weekday()`), plus the
hour and minute used for the `(hour, minute)` tuple comparisons. -/
structure DT where
  date : Nat
  hour : Nat
  minute : Nat
deriving DecidableEq, Repr

/-- `TradingScheduler.is_trading_day` (`trading_scheduler.py`, lines 28-49):
false exactly on Saturday (5) and Sunday (6). -/
def is_trading_day (t : DT) : Bool :=
  decide (t.date % 7 < 5)

/-- Python tuple comparison `(t.hour, t.minute) >= (h, m)`. -/
def timeGE (t : DT) (h m : Nat) : Bool :=
  decide (h < t.hour) || (decide (t.hour = h) && decide (m ≤ t.minute))

/-- Python tuple comparison `(t.hour, t.minute) < (h, m)`. -/
def timeLT (t : DT) (h m : Nat) : Bool :=
  decide (t.hour < h) || (decide (t.hour = h) && decide (t.minute < m))

/-- `self._last_event_time` (lines 70-72): per-event time of the last firing,
`none` until the event first fires. -/
structure LifeState where
  lastEventTime : LifecycleEvent → Option DT

/-- `_is_event_triggered_today` (lines 168-174): the event fired and its
recorded time falls on today's date. -/
def triggeredToday (st : LifeState) (e : LifecycleEvent) (now : DT) : Bool :=
  match st.lastEventTime e with
  | none => false
  | some t => decide (t.date = now.date)

/-- `_mark_event_triggered` (lines 176-178). -/
def markEvent (st : LifeState) (e : LifecycleEvent) (now : DT) : LifeState :=
  { lastEventTime := fun e' => if e' = e then some now else st.lastEventTime e' }

/-- One `if cond and not triggered_today: fire; mark` block of the loop body
(lines 141-159); the fired event is appended to the tick's event list. -/
def checkEvent (e : LifecycleEvent) (cond : Bool) (now : DT)
    (acc : LifeState × List LifecycleEvent) : LifeState × List LifecycleEvent :=
  if cond && !(triggeredToday acc.1 e now) then
    (markEvent acc.1 e now, acc.2 ++ [e])
  else acc

/-- One iteration of `LifecycleManager.run` (lines 130-164), returning the new
marker state and the events fired in this tick.  The three windows are
`[09:25, 09:30)`, `[15:05, 15:10)` and `[15:10, 15:15)`; non-trading days are
skipped. -/
def tick (auto_start auto_stop : Bool) (st : LifeState) (now : DT) :
    LifeState × List LifecycleEvent :=
  if !(is_trading_day now) then (st, [])
  else
    checkEvent LifecycleEvent.market_close
      (timeGE now 15 10 && timeLT now 15 15) now
      (checkEvent LifecycleEvent.post_market_close
        (auto_stop && timeGE now 15 5 && timeLT now 15 10) now
        (checkEvent LifecycleEvent.pre_market_open
          (auto_start && timeGE now 9 25 && timeLT now 9 30) now (st, [])))

/-- Run the loop over a sequence of wall-clock samples, logging each fired
event with the sample it fired at. -/
def runTicks (auto_start auto_stop : Bool) (st : LifeState) :
    List DT → List (DT × LifecycleEvent)
  | [] => []
  | t :: ts =>
    (tick auto_start auto_stop st t).2.map (fun e => (t, e)) ++
      runTicks auto_start auto_stop (tick auto_start auto_stop st t).1 ts

/-! ### Log stream server: bounded replay buffer and fan-out
(`log_stream_server.py`, lines 18-176) -/

/-- The observable state of a `LogStreamServer`: the `deque(maxlen=H)`
history, and the connected clients with what each has been sent so far.  The
`Bool` is the connection flag: `broadcast` reaches only connected clients,
and a disconnected client's transcript no longer grows. -/
structure StreamState (M : Type) where
  history : List M
  clients : List (Nat × Bool × List M)
deriving DecidableEq, Repr

/-- `self.log_history.append(message)` on a `deque(maxlen=H)`: append right,
evict the oldest entry when the size would exceed `H`. -/
def pushHist {M : Type} (H : Nat) (h : List M) (m : M) : List M :=
  let h' := h ++ [m]
  if decide (H < h'.length) then h'.tail else h'

/-- `broadcast` (lines 146-165): append to the history ring, then send to
every connected client. -/
def broadcast {M : Type} (H : Nat) (st : StreamState M) (m : M) : StreamState M :=
  { history := pushHist H st.history m
    clients := st.clients.map (fun c => if c.2.1 then (c.1, true, c.2.2 ++ [m]) else c) }

/-- The replay phase of `_handler` (lines 47-63): on connect the client is
registered and immediately receives the whole history buffer in order. -/
def connectClient {M : Type} (st : StreamState M) (cid : Nat) : StreamState M :=
  { st with clients := st.clients ++ [(cid, true, st.history)] }

/-- Client close (lines 66-69): the subscriber is forgotten; nothing further
is sent to it. -/
def disconnectClient {M : Type} (st : StreamState M) (cid : Nat) : StreamState M :=
  { st with clients := st.clients.map (fun c => if c.1 = cid then (c.1, false, c.2.2) else c) }

/-- A sequence of `broadcast` calls. -/
def broadcastList {M : Type} (H : Nat) (st : StreamState M) (ms : List M) : StreamState M :=
  ms.foldl (broadcast H) st

/-- The server right after `start()`: empty history, no subscribers. -/
def initStream (M : Type) : StreamState M :=
  { history := [], clients := [] }

/-! ### Worker states and the vnpy adapter's run/stop paths
(`strategy_worker.py` lines 16-22, `vnpy_adapter.py` lines 236-273) -/

/-- `WorkerState` (`strategy_worker.py`, lines 16-22). -/
inductive WorkerState
  | CREATED
  | RUNNING
  | PAUSED
  | STOPPED
  | ERROR
deriving DecidableEq, Repr

/-- The successive values assigned to `self._state` by
`VnpyWorkerAdapter.run` (lines 236-254), starting from `CREATED`: line 239
sets `RUNNING`; if the engine raises, line 250 sets `ERROR`; the `finally`
block (line 253) then unconditionally sets `STOPPED`. -/
def runStateTrace (engineRaises : Bool) : List WorkerState :=
  [WorkerState.RUNNING] ++
    (if engineRaises then [WorkerState.ERROR] else []) ++
    [WorkerState.STOPPED]

/-- The worker's `_state` after `run` returns. -/
def runFinalState (engineRaises : Bool) : WorkerState :=
  (runStateTrace engineRaises).getLastD WorkerState.CREATED

/-- An environment in which no external call raises. -/
def envNoFail : Env :=
  { stopFails := fun _ => false, startFails := fun _ => false }

/-- A sequence of public orchestrator operations. -/
def runOps (env : Env) (factories : String → Bool) (st : Orch) (ops : List OrchOp) : Orch :=
  ops.foldl (applyOp env factories) st

/-- A concrete configuration, for concrete evaluations. -/
def cfgDemo : StrategyConfig :=
  { symbol := "000001.SZ", strategy_key := "turtle",
    params := [("threshold", PValue.pint 5)], enabled := true,
    user_id := some "u1", engine := "vnpy", engine_class := none }

/-- The worker key of `cfgDemo`. -/
def keyDemo : String := "u1_000001.SZ_turtle"

/-- A worker running `cfgDemo`. -/
def workerDemo : Worker := { wid := 0, key := keyDemo, config := cfgDemo }

/-- An orchestrator with `workerDemo` running. -/
def orchDemo : Orch :=
  { workers := [(keyDemo, workerDemo)]
    configurations := [(keyDemo, cfgDemo)]
    nextId := 1 }

/-!
## Theorems

First a small library about the dict model, then per-component lemmas, then
the claim theorems (named `Cn_*`) with their witnesses.
-/

theorem lookupS_insertS_self {V : Type} (m : List (String × V)) (k : String) (v : V) :
    lookupS (insertS m k v) k = some v := by
  induction m with
  | nil => simp [insertS, lookupS]
  | cons p t ih =>
    by_cases h : p.1 = k
    · simp [insertS, h, lookupS]
    · cases p
      simp_all [insertS, lookupS, h]

theorem lookupS_insertS_ne {V : Type} (m : List (String × V)) {k k' : String}
    (h : k' ≠ k) (v : V) : lookupS (insertS m k v) k' = lookupS m k' := by
  have hk : ¬k = k' := Ne.symm h
  induction m with
  | nil => simp [insertS, lookupS, hk]
  | cons p t ih =>
    cases p with
    | mk a b =>
      by_cases ha : a = k
      · subst ha
        simp [insertS, lookupS, hk]
      · simp [insertS, ha, lookupS, ih]

theorem lookupS_eraseS_self {V : Type} (m : List (String × V)) (k : String) :
    lookupS (eraseS m k) k = none := by
  induction m with
  | nil => simp [eraseS, lookupS]
  | cons p t ih =>
    cases p with
    | mk a b =>
      by_cases ha : a = k
      · simpa [eraseS, ha] using ih
      · simpa [eraseS, lookupS, ha] using ih

theorem lookupS_eraseS_ne {V : Type} (m : List (String × V)) {k k' : String}
    (h : k' ≠ k) : lookupS (eraseS m k) k' = lookupS m k' := by
  have hk : ¬k = k' := Ne.symm h
  induction m with
  | nil => simp [eraseS, lookupS]
  | cons p t ih =>
    cases p with
    | mk a b =>
      by_cases ha : a = k
      · subst ha
        simpa [eraseS, List.filter_cons, lookupS, hk] using ih
      · by_cases ha' : a = k'
        · simp [eraseS, List.filter_cons, ha, lookupS, ha', h]
        · simpa [eraseS, List.filter_cons, ha, lookupS, ha'] using ih

theorem mem_keysS {V : Type} (m : List (String × V)) (k : String) :
    k ∈ keysS m ↔ (lookupS m k).isSome := by
  induction m with
  | nil => simp [keysS, lookupS]
  | cons p t ih =>
    cases p with
    | mk a b =>
      by_cases ha : a = k
      · simp [keysS, lookupS, ha]
      · simp only [keysS, List.map_cons, List.mem_cons, lookupS, if_neg ha]
        constructor
        · intro h
          rcases h with h | h
          · exact absurd h.symm ha
          · exact (ih.mp (by simpa [keysS] using h))
        · intro h
          exact Or.inr (by simpa [keysS] using ih.mpr h)

theorem eq_nil_of_lookupS {V : Type} (m : List (String × V))
    (h : ∀ k, lookupS m k = none) : m = [] := by
  cases m with
  | nil => rfl
  | cons p t =>
    have := h p.1
    cases p
    simp [lookupS] at this

theorem lookupS_append {V : Type} (l₁ l₂ : List (String × V)) (k : String) :
    lookupS (l₁ ++ l₂) k =
      if (lookupS l₁ k).isSome then lookupS l₁ k else lookupS l₂ k := by
  induction l₁ with
  | nil => simp [lookupS]
  | cons p t ih =>
    cases p with
    | mk a b =>
      by_cases ha : a = k
      · simp [lookupS, ha]
      · simpa [lookupS, ha] using ih

theorem lookupS_eq_none_of_not_mem_keys {V : Type} (m : List (String × V))
    {k : String} (h : k ∉ keysS m) : lookupS m k = none := by
  cases hl : lookupS m k with
  | none => rfl
  | some v =>
    exact absurd ((mem_keysS m k).mpr (by simp [hl])) h

theorem lookupS_of_perm {V : Type} {l₁ l₂ : List (String × V)}
    (p : l₁.Perm l₂) (nd : (l₁.map Prod.fst).Nodup) (k : String) :
    lookupS l₁ k = lookupS l₂ k := by
  induction p with
  | nil => rfl
  | cons a p ih =>
    cases a with
    | mk x v =>
      by_cases hx : x = k
      · simp [lookupS, hx]
      · simp only [lookupS, if_neg hx]
        exact ih (by simpa using nd.of_cons)
  | swap x y l =>
    cases x with
    | mk x1 x2 =>
      cases y with
      | mk y1 y2 =>
        have hxy : y1 ≠ x1 := by
          simp only [List.map_cons, List.nodup_cons, List.mem_cons] at nd
          exact fun hh => nd.1 (Or.inl hh)
        by_cases hy : y1 = k
        · by_cases hx : x1 = k
          · exact absurd (hy.trans hx.symm) hxy
          · simp [lookupS, hy, hx]
        · by_cases hx : x1 = k
          · simp [lookupS, hy, hx]
          · simp [lookupS, hy, hx]
  | trans p₁ p₂ ih₁ ih₂ =>
    have nd₂ : _ := ((p₁.map Prod.fst).nodup_iff).mp nd
    exact (ih₁ nd).trans (ih₂ nd₂)

/-! ### Lemmas about `_stop_worker` and `_start_worker` folds -/

theorem stopWorker_configurations (env : Env) (st : Orch) (k : String) :
    (stopWorker env st k).configurations = st.configurations := by
  unfold stopWorker
  cases lookupS st.workers k <;> simp only []
  split <;> rfl

theorem stopWorker_nextId (env : Env) (st : Orch) (k : String) :
    (stopWorker env st k).nextId = st.nextId := by
  unfold stopWorker
  cases lookupS st.workers k <;> simp only []
  split <;> rfl

theorem lookupS_stopWorker (env : Env) (st : Orch) (k k' : String) :
    lookupS (stopWorker env st k).workers k' =
      if k' = k ∧ env.stopFails k = false then none
      else lookupS st.workers k' := by
  unfold stopWorker
  by_cases hk : k' = k
  · subst hk
    cases hl : lookupS st.workers k' with
    | none =>
      by_cases hf : env.stopFails k' = false <;> simp [hl, hf]
    | some w =>
      by_cases hf : env.stopFails k'
      · simp [hl, hf]
      · simp only [hl, hf, Bool.false_eq_true, if_false, eq_self_iff_true,
          true_and, if_true, Bool.not_eq_true]
        simp [lookupS_eraseS_self, hf]
  · cases hl : lookupS st.workers k with
    | none => simp [hl, hk]
    | some w =>
      by_cases hf : env.stopFails k
      · simp [hl, hf, hk]
      · simp [hl, hf, hk, lookupS_eraseS_ne _ hk]

theorem stopFold_configurations (env : Env) (L : List String) (st : Orch) :
    (L.foldl (stopWorker env) st).configurations = st.configurations := by
  induction L generalizing st with
  | nil => rfl
  | cons a L ih => simp [List.foldl_cons, ih, stopWorker_configurations]

theorem stopFold_nextId (env : Env) (L : List String) (st : Orch) :
    (L.foldl (stopWorker env) st).nextId = st.nextId := by
  induction L generalizing st with
  | nil => rfl
  | cons a L ih => simp [List.foldl_cons, ih, stopWorker_nextId]

theorem lookupS_stopFold (env : Env) (L : List String) (st : Orch) (k : String) :
    lookupS (L.foldl (stopWorker env) st).workers k =
      if k ∈ L ∧ env.stopFails k = false then none
      else lookupS st.workers k := by
  induction L generalizing st with
  | nil => simp
  | cons a L ih =>
    rw [List.foldl_cons, ih, lookupS_stopWorker]
    by_cases hf : env.stopFails k = false
    · by_cases hL : k ∈ L
      · simp [hL, hf, List.mem_cons]
      · by_cases ha : k = a
        · subst ha
          simp [hL, hf, List.mem_cons]
        · simp [hL, hf, ha, List.mem_cons]
    · simp only [hf, and_false, if_false]
      by_cases ha : k = a
      · subst ha
        simp [hf]
      · simp [ha, hf]

theorem startWorker_configurations (env : Env) (st : Orch) (k : String)
    (c : StrategyConfig) : (startWorker env st k c).configurations = st.configurations := by
  unfold startWorker
  split <;> rfl

theorem startOne_configurations (env : Env) (D : List (String × StrategyConfig))
    (st : Orch) (k : String) : (startOne env D st k).configurations = st.configurations := by
  unfold startOne
  cases lookupS D k with
  | none => rfl
  | some c => exact startWorker_configurations env st k c

theorem startFold_configurations (env : Env) (D : List (String × StrategyConfig))
    (L : List String) (st : Orch) :
    (L.foldl (startOne env D) st).configurations = st.configurations := by
  induction L generalizing st with
  | nil => rfl
  | cons a L ih => simp [List.foldl_cons, ih, startOne_configurations]

theorem startOne_nextId_le (env : Env) (D : List (String × StrategyConfig))
    (st : Orch) (k : String) : st.nextId ≤ (startOne env D st k).nextId := by
  unfold startOne startWorker
  cases lookupS D k with
  | none => exact Nat.le_refl _
  | some c =>
    simp only []
    split
    · exact Nat.le_refl _
    · exact Nat.le_succ _

theorem startFold_nextId_le (env : Env) (D : List (String × StrategyConfig))
    (L : List String) (st : Orch) : st.nextId ≤ (L.foldl (startOne env D) st).nextId := by
  induction L generalizing st with
  | nil => exact Nat.le_refl _
  | cons a L ih =>
    exact Nat.le_trans (startOne_nextId_le env D st a) (by simpa using ih (startOne env D st a))

theorem lookupS_startOne_ne (env : Env) (D : List (String × StrategyConfig))
    (st : Orch) {k k' : String} (h : k' ≠ k) :
    lookupS (startOne env D st k).workers k' = lookupS st.workers k' := by
  unfold startOne startWorker
  cases lookupS D k with
  | none => rfl
  | some c =>
    simp only []
    split
    · rfl
    · exact lookupS_insertS_ne st.workers h _

theorem lookupS_startFold_notMem (env : Env) (D : List (String × StrategyConfig))
    (L : List String) (st : Orch) {k : String} (h : k ∉ L) :
    lookupS (L.foldl (startOne env D) st).workers k = lookupS st.workers k := by
  induction L generalizing st with
  | nil => rfl
  | cons a L ih =>
    have hka : k ≠ a := fun hh => h (hh ▸ List.mem_cons_self a L)
    have hL : k ∉ L := fun hh => h (List.mem_cons_of_mem a hh)
    rw [List.foldl_cons, ih _ hL, lookupS_startOne_ne env D st hka]

theorem lookupS_startOne_fails (env : Env) (D : List (String × StrategyConfig))
    (st : Orch) {k : String} (h : env.startFails k = true) :
    startOne env D st k = st := by
  unfold startOne startWorker
  cases lookupS D k with
  | none => rfl
  | some c => simp [h]

theorem lookupS_startFold_fails (env : Env) (D : List (String × StrategyConfig))
    (L : List String) (st : Orch) {k : String} (h : env.startFails k = true) :
    lookupS (L.foldl (startOne env D) st).workers k = lookupS st.workers k := by
  induction L generalizing st with
  | nil => rfl
  | cons a L ih =>
    by_cases ha : k = a
    · subst ha
      rw [List.foldl_cons, ih, lookupS_startOne_fails env D st h]
    · rw [List.foldl_cons, ih, lookupS_startOne_ne env D st ha]

theorem startFold_id (env : Env) (D : List (String × StrategyConfig))
    (L : List String) (st : Orch) (h : ∀ k ∈ L, env.startFails k = true) :
    L.foldl (startOne env D) st = st := by
  induction L generalizing st with
  | nil => rfl
  | cons a L ih =>
    rw [List.foldl_cons, lookupS_startOne_fails env D st (h a (List.mem_cons_self a L))]
    exact ih st (fun k hk => h k (List.mem_cons_of_mem a hk))

theorem startFold_some (env : Env) (D : List (String × StrategyConfig))
    (L : List String) (st : Orch) {k : String} {c : StrategyConfig}
    (hmem : k ∈ L) (hf : env.startFails k = false) (hc : lookupS D k = some c) :
    ∃ w, lookupS (L.foldl (startOne env D) st).workers k = some w ∧
      w.key = k ∧ w.config = c ∧ st.nextId ≤ w.wid := by
  induction L generalizing st with
  | nil => exact absurd hmem (List.not_mem_nil k)
  | cons a L ih =>
    rw [List.foldl_cons]
    by_cases ha : k = a
    · subst ha
      by_cases hL : k ∈ L
      · obtain ⟨w, hw, h1, h2, h3⟩ := ih (startOne env D st k) hL
        exact ⟨w, hw, h1, h2, Nat.le_trans (startOne_nextId_le env D st k) h3⟩
      · refine ⟨Worker.mk st.nextId k c, ?_, rfl, rfl, Nat.le_refl _⟩
        rw [lookupS_startFold_notMem env D L _ hL]
        unfold startOne startWorker
        rw [hc]
        simp [hf, lookupS_insertS_self]
    · have hL : k ∈ L := by
        rcases List.mem_cons.mp hmem with hh | hh
        · exact absurd hh ha
        · exact hh
      obtain ⟨w, hw, h1, h2, h3⟩ := ih (startOne env D st a) hL
      exact ⟨w, hw, h1, h2, Nat.le_trans (startOne_nextId_le env D st a) h3⟩

/-! ### Lemmas about one `sync_workers` pass -/

theorem stopFold_none (env : Env) (L : List String) (st : Orch) {k : String}
    (h : lookupS st.workers k = none) :
    lookupS (L.foldl (stopWorker env) st).workers k = none := by
  rw [lookupS_stopFold]
  split
  · rfl
  · exact h

theorem mem_syncToStop {st : Orch} {D : List (String × StrategyConfig)} {k : String} :
    k ∈ syncToStop st D ↔ k ∈ keysS st.workers ∧ hasKeyS D k = false := by
  simp [syncToStop, List.mem_filter]

theorem mem_syncToRestart {st : Orch} {D : List (String × StrategyConfig)} {k : String} :
    k ∈ syncToRestart st D ↔
      k ∈ keysS st.workers ∧ hasKeyS D k = true ∧ configChanged st.configurations D k = true := by
  simp [syncToRestart, List.mem_filter]

theorem mem_syncToStart {env : Env} {st : Orch} {D : List (String × StrategyConfig)}
    {k : String} :
    k ∈ syncToStart env st D ↔
      k ∈ keysS D ∧ hasKeyS (syncSt3 env st D).workers k = false := by
  simp [syncToStart, List.mem_filter]

theorem syncSt3_workers (env : Env) (st : Orch) (D : List (String × StrategyConfig)) :
    (syncSt3 env st D).workers = (syncSt2 env st D).workers := rfl

theorem syncSt3_nextId (env : Env) (st : Orch) (D : List (String × StrategyConfig)) :
    (syncSt3 env st D).nextId = st.nextId := by
  show (syncSt2 env st D).nextId = st.nextId
  unfold syncSt2 syncSt1
  rw [stopFold_nextId, stopFold_nextId]

/-- After a pass, `self.configurations` is exactly the desired map. -/
theorem sync_configurations (env : Env) (st : Orch) (D : List (String × StrategyConfig)) :
    (syncWorkers env st D).1.configurations = D := by
  show ((syncToStart env st D).foldl (startOne env D) (syncSt3 env st D)).configurations = D
  rw [startFold_configurations]
  rfl

/-- A key missing from the desired map is not running after the pass,
provided no `worker.stop` raised. -/
theorem sync_lookup_of_not_target (env : Env) (st : Orch)
    (D : List (String × StrategyConfig)) {k : String}
    (hstop : ∀ k, env.stopFails k = false) (hD : hasKeyS D k = false) :
    lookupS (syncWorkers env st D).1.workers k = none := by
  have h1 : lookupS (syncSt1 env st D).workers k = none := by
    unfold syncSt1
    by_cases hw : k ∈ keysS st.workers
    · rw [lookupS_stopFold]
      simp [mem_syncToStop, hw, hD, hstop k]
    · exact stopFold_none env _ st (lookupS_eq_none_of_not_mem_keys st.workers hw)
  have h2 : lookupS (syncSt2 env st D).workers k = none := stopFold_none env _ _ h1
  have h3 : k ∉ syncToStart env st D := by
    intro hk
    have := (mem_syncToStart.mp hk).1
    exact absurd ((mem_keysS D k).mp this) (by simp [hasKeyS] at hD ⊢; simp [hD])
  show lookupS ((syncToStart env st D).foldl (startOne env D) (syncSt3 env st D)).workers k = none
  rw [lookupS_startFold_notMem env D _ _ h3, syncSt3_workers]
  exact h2

/-- A desired key whose start does not fail is running after the pass. -/
theorem sync_hasKey_of_target (env : Env) (st : Orch)
    (D : List (String × StrategyConfig)) {k : String}
    (hD : hasKeyS D k = true) (hs : env.startFails k = false) :
    hasKeyS (syncWorkers env st D).1.workers k = true := by
  by_cases h3 : hasKeyS (syncSt3 env st D).workers k = true
  · have hns : k ∉ syncToStart env st D := by
      intro hk
      have := (mem_syncToStart.mp hk).2
      rw [h3] at this
      cases this
    show hasKeyS ((syncToStart env st D).foldl (startOne env D) (syncSt3 env st D)).workers k = true
    unfold hasKeyS
    rw [lookupS_startFold_notMem env D _ _ hns]
    exact h3
  · have hmem : k ∈ syncToStart env st D := by
      rw [mem_syncToStart]
      refine ⟨(mem_keysS D k).mpr ?_, ?_⟩
      · simpa [hasKeyS] using hD
      · simpa using h3
    obtain ⟨c, hc⟩ : ∃ c, lookupS D k = some c := by
      cases hl : lookupS D k with
      | none => simp [hasKeyS, hl] at hD
      | some c => exact ⟨c, rfl⟩
    obtain ⟨w, hw, -, -, -⟩ :=
      startFold_some env D (syncToStart env st D) (syncSt3 env st D) hmem hs hc
    show hasKeyS ((syncToStart env st D).foldl (startOne env D) (syncSt3 env st D)).workers k = true
    simp [hasKeyS, hw]

/-- A desired key not running after the pass had its start fail. -/
theorem sync_startFail_of_missing (env : Env) (st : Orch)
    (D : List (String × StrategyConfig)) {k : String}
    (hD : hasKeyS D k = true)
    (hmiss : hasKeyS (syncWorkers env st D).1.workers k = false) :
    env.startFails k = true := by
  by_cases hs : env.startFails k = true
  · exact hs
  · have := sync_hasKey_of_target env st D hD (by simpa using hs)
    rw [hmiss] at this
    cases this

/-- A running key whose config is present on both sides with an unchanged
hash survives the pass untouched: the same worker object stays registered. -/
theorem sync_kept (env : Env) (st : Orch) (D : List (String × StrategyConfig))
    {k : String} {w : Worker} {o n : StrategyConfig}
    (hw : lookupS st.workers k = some w)
    (ho : lookupS st.configurations k = some o)
    (hn : lookupS D k = some n)
    (hh : o.get_hash = n.get_hash) :
    lookupS (syncWorkers env st D).1.workers k = some w := by
  have hD : hasKeyS D k = true := by simp [hasKeyS, hn]
  have hns : k ∉ syncToStop st D := by
    intro hk
    rw [(mem_syncToStop.mp hk).2] at hD
    cases hD
  have h1 : lookupS (syncSt1 env st D).workers k = some w := by
    unfold syncSt1
    rw [lookupS_stopFold]
    simp [hns, hw]
  have hnr : k ∉ syncToRestart st D := by
    intro hk
    have := (mem_syncToRestart.mp hk).2.2
    rw [configChanged, ho, hn] at this
    simp [hh] at this
  have h2 : lookupS (syncSt2 env st D).workers k = some w := by
    unfold syncSt2
    rw [lookupS_stopFold]
    simp [hnr, h1]
  have hnt : k ∉ syncToStart env st D := by
    intro hk
    have := (mem_syncToStart.mp hk).2
    rw [syncSt3_workers] at this
    simp [hasKeyS, h2] at this
  show lookupS ((syncToStart env st D).foldl (startOne env D) (syncSt3 env st D)).workers k = some w
  rw [lookupS_startFold_notMem env D _ _ hnt, syncSt3_workers]
  exact h2

/-- A running key whose config hash changed is stopped and recreated by the
pass (when its stop and start succeed): a fresh worker, built from the new
config, replaces it. -/
theorem sync_restarted (env : Env) (st : Orch) (D : List (String × StrategyConfig))
    {k : String} {w : Worker} {o n : StrategyConfig}
    (hw : lookupS st.workers k = some w)
    (ho : lookupS st.configurations k = some o)
    (hn : lookupS D k = some n)
    (hh : o.get_hash ≠ n.get_hash)
    (hstopk : env.stopFails k = false)
    (hstartk : env.startFails k = false) :
    ∃ w', lookupS (syncWorkers env st D).1.workers k = some w' ∧
      w'.key = k ∧ w'.config = n ∧ st.nextId ≤ w'.wid := by
  have hD : hasKeyS D k = true := by simp [hasKeyS, hn]
  have hmemr : k ∈ syncToRestart st D := by
    rw [mem_syncToRestart]
    refine ⟨(mem_keysS st.workers k).mpr (by simp [hw]), hD, ?_⟩
    rw [configChanged, ho, hn]
    simp [hh]
  have h2 : lookupS (syncSt2 env st D).workers k = none := by
    unfold syncSt2
    rw [lookupS_stopFold]
    simp [hmemr, hstopk]
  have hmemt : k ∈ syncToStart env st D := by
    rw [mem_syncToStart]
    refine ⟨(mem_keysS D k).mpr (by simp [hn]), ?_⟩
    rw [syncSt3_workers]
    simp [hasKeyS, h2]
  obtain ⟨w', hw', h1, h2', h3⟩ :=
    startFold_some env D (syncToStart env st D) (syncSt3 env st D) hmemt hstartk hn
  refine ⟨w', hw', h1, h2', ?_⟩
  rw [syncSt3_nextId] at h3
  exact h3

/-- A fresh desired key (not currently running) is started by the pass when
its start succeeds, under the key it is filed under. -/
theorem sync_started_new (env : Env) (st : Orch) (D : List (String × StrategyConfig))
    {k : String} {c : StrategyConfig}
    (hw : lookupS st.workers k = none)
    (hc : lookupS D k = some c)
    (hstartk : env.startFails k = false) :
    ∃ w, lookupS (syncWorkers env st D).1.workers k = some w ∧
      w.key = k ∧ w.config = c := by
  have h1 : lookupS (syncSt1 env st D).workers k = none := stopFold_none env _ st hw
  have h2 : lookupS (syncSt2 env st D).workers k = none := stopFold_none env _ _ h1
  have hmemt : k ∈ syncToStart env st D := by
    rw [mem_syncToStart]
    refine ⟨(mem_keysS D k).mpr (by simp [hc]), ?_⟩
    rw [syncSt3_workers]
    simp [hasKeyS, h2]
  obtain ⟨w, hw', hk, hcfg, -⟩ :=
    startFold_some env D (syncToStart env st D) (syncSt3 env st D) hmemt hstartk hc
  exact ⟨w, hw', hk, hcfg⟩

theorem configChanged_self (D : List (String × StrategyConfig)) (k : String) :
    configChanged D D k = false := by
  unfold configChanged
  cases h : lookupS D k <;> simp

theorem orch_update_self {st : Orch} {D : List (String × StrategyConfig)}
    (h : st.configurations = D) : ({ st with configurations := D } : Orch) = st := by
  cases st
  simp_all

/-- A state whose configurations already equal `D` and whose running keys all
lie in `D` is a fixed point of the stop phases of `sync_workers`. -/
theorem sync_stable (env : Env) (st : Orch) (D : List (String × StrategyConfig))
    (hconf : st.configurations = D)
    (hsub : ∀ k, hasKeyS st.workers k = true → hasKeyS D k = true) :
    syncToStop st D = [] ∧ syncToRestart st D = [] ∧ syncSt3 env st D = st := by
  have h1 : syncToStop st D = [] := by
    rw [syncToStop, List.filter_eq_nil_iff]
    intro k hk
    have hD := hsub k ((mem_keysS st.workers k).mp hk)
    simp [hD]
  have h2 : syncToRestart st D = [] := by
    rw [syncToRestart, List.filter_eq_nil_iff]
    intro k hk
    rw [hconf, configChanged_self]
    simp
  have h3 : syncSt3 env st D = st := by
    rw [syncSt3, syncSt2, syncSt1, h1, h2]
    simp only [List.foldl_nil]
    exact orch_update_self hconf
  exact ⟨h1, h2, h3⟩

/-- Claim C3: reconciling the same desired map `D` twice in a row leaves the
state of the first pass unchanged, and the second pass stops no worker and
restarts no worker (when no `worker.stop` raises; start failures are retried
and fail identically, changing nothing). -/
theorem C3_sync_idempotent (env : Env) (st : Orch) (D : List (String × StrategyConfig))
    (hstop : ∀ k, env.stopFails k = false) :
    (syncWorkers env (syncWorkers env st D).1 D).1 = (syncWorkers env st D).1 ∧
    (syncWorkers env (syncWorkers env st D).1 D).2.stopped = 0 ∧
    (syncWorkers env (syncWorkers env st D).1 D).2.restarted = 0 := by
  set st1 := (syncWorkers env st D).1 with hst1
  have hconf : st1.configurations = D := sync_configurations env st D
  have hsub : ∀ k, hasKeyS st1.workers k = true → hasKeyS D k = true := by
    intro k hk
    by_cases hD : hasKeyS D k = true
    · exact hD
    · have hD' : hasKeyS D k = false := by simpa using hD
      have := sync_lookup_of_not_target env st D hstop hD'
      rw [← hst1] at this
      simp [hasKeyS, this] at hk
  obtain ⟨h1, h2, h3⟩ := sync_stable env st1 D hconf hsub
  have hfails : ∀ k ∈ syncToStart env st1 D, env.startFails k = true := by
    intro k hk
    obtain ⟨hkD, hmiss⟩ := mem_syncToStart.mp hk
    rw [h3] at hmiss
    have hDk : hasKeyS D k = true := (mem_keysS D k).mp hkD
    exact sync_startFail_of_missing env st D hDk hmiss
  refine ⟨?_, ?_, ?_⟩
  · show (syncToStart env st1 D).foldl (startOne env D) (syncSt3 env st1 D) = st1
    rw [startFold_id env D _ _ hfails, h3]
  · show (syncToStop st1 D).length = 0
    rw [h1]
    rfl
  · show (syncToRestart st1 D).length = 0
    rw [h2]
    rfl

/-- Concrete instance of C3. -/
theorem C3_sync_idempotent_witness :
    (syncWorkers envNoFail (syncWorkers envNoFail orchDemo [(keyDemo, cfgDemo)]).1
        [(keyDemo, cfgDemo)]).1 = (syncWorkers envNoFail orchDemo [(keyDemo, cfgDemo)]).1 ∧
    (syncWorkers envNoFail (syncWorkers envNoFail orchDemo [(keyDemo, cfgDemo)]).1
        [(keyDemo, cfgDemo)]).2.stopped = 0 ∧
    (syncWorkers envNoFail (syncWorkers envNoFail orchDemo [(keyDemo, cfgDemo)]).1
        [(keyDemo, cfgDemo)]).2.restarted = 0 :=
  C3_sync_idempotent envNoFail orchDemo [(keyDemo, cfgDemo)] (fun _ => rfl)

/-- Claim C4: after one pass, the running key set is the desired key set
except for keys whose worker construction or start failed; such failures do
not prevent the other desired keys from running.  (The worker contract is
assumed: `worker.stop` does not raise — stop-raising behaviour is claim
C5's subject.) -/
theorem C4_sync_convergence (env : Env) (st : Orch) (D : List (String × StrategyConfig))
    (hstop : ∀ k, env.stopFails k = false) :
    (∀ k, hasKeyS (syncWorkers env st D).1.workers k = true → hasKeyS D k = true) ∧
    (∀ k, hasKeyS D k = true → hasKeyS (syncWorkers env st D).1.workers k = false →
      env.startFails k = true) ∧
    (∀ k, hasKeyS D k = true → env.startFails k = false →
      hasKeyS (syncWorkers env st D).1.workers k = true) := by
  refine ⟨?_, ?_, ?_⟩
  · intro k hk
    by_cases hD : hasKeyS D k = true
    · exact hD
    · have hD' : hasKeyS D k = false := by simpa using hD
      have := sync_lookup_of_not_target env st D hstop hD'
      simp [hasKeyS, this] at hk
  · intro k hD hmiss
    exact sync_startFail_of_missing env st D hD hmiss
  · intro k hD hs
    exact sync_hasKey_of_target env st D hD hs

/-- Concrete instance of C4. -/
theorem C4_sync_convergence_witness :
    hasKeyS [(keyDemo, cfgDemo)] keyDemo = true ∧
    hasKeyS (syncWorkers envNoFail orchDemo [(keyDemo, cfgDemo)]).1.workers keyDemo = true :=
  ⟨by decide,
   (C4_sync_convergence envNoFail orchDemo [(keyDemo, cfgDemo)] (fun _ => rfl)).2.2 keyDemo
     (by decide) rfl⟩

/-- One `sync_workers` pass establishes the workers-have-configs invariant
whenever no `worker.stop` raises during it. -/
theorem sync_inv (env : Env) (st : Orch) (D : List (String × StrategyConfig))
    (hstop : ∀ k, env.stopFails k = false) :
    OrchInv (syncWorkers env st D).1 := by
  intro k hk
  by_cases hD : hasKeyS D k = true
  · rw [sync_configurations env st D]
    exact hD
  · have hD' : hasKeyS D k = false := by simpa using hD
    have := sync_lookup_of_not_target env st D hstop hD'
    simp [hasKeyS, this] at hk

/-- `stop_all` preserves the invariant (it never touches `configurations`). -/
theorem stopAll_inv (env : Env) (st : Orch) (h0 : OrchInv st) :
    OrchInv (stopAll env st) := by
  intro k hk
  simp only [hasKeyS, stopAll] at hk
  rw [lookupS_stopFold] at hk
  have hk' : (lookupS st.workers k).isSome = true := by
    by_cases hc : k ∈ keysS st.workers ∧ env.stopFails k = false
    · rw [if_pos hc] at hk
      cases hk
    · rw [if_neg hc] at hk
      exact hk
  show hasKeyS ((keysS st.workers).foldl (stopWorker env) st).configurations k = true
  unfold hasKeyS
  rw [stopFold_configurations]
  exact h0 k hk'

/-- Claim C5 counterexample: with `D = {}` and a `worker.stop` that raises,
the pass leaves the worker registered while `configurations` loses its entry,
so the invariant `workers ⊆ configurations` is broken at a stable point. -/
theorem C5_counterexample :
    hasKeyS (syncWorkers { stopFails := fun k => k == keyDemo, startFails := fun _ => false }
        orchDemo []).1.workers keyDemo = true ∧
    hasKeyS (syncWorkers { stopFails := fun k => k == keyDemo, startFails := fun _ => false }
        orchDemo []).1.configurations keyDemo = false := by
  decide

/-- Claim C5 (amended): after any sequence of `sync_workers` / `start_all` /
`stop_all` calls from a state satisfying the invariant, every key in
`workers` is in `configurations` — provided no individual `worker.stop`
raised during the sequence.  (When one does raise, the worker stays
registered while its configuration entry is dropped, as the counterexample
shows.) -/
theorem C5_amended_invariant (env : Env) (factories : String → Bool) (ops : List OrchOp)
    (st0 : Orch) (hstop : ∀ k, env.stopFails k = false) (h0 : OrchInv st0) :
    OrchInv (runOps env factories st0 ops) := by
  induction ops generalizing st0 with
  | nil => exact h0
  | cons op ops ih =>
    have hstep : OrchInv (applyOp env factories st0 op) := by
      cases op with
      | syncOp D => exact sync_inv env st0 D hstop
      | startAllOp loadFails userFilter docs => exact sync_inv env st0 _ hstop
      | stopAllOp => exact stopAll_inv env st0 h0
    exact ih _ hstep

/-- Concrete instance of the amended C5. -/
theorem C5_amended_invariant_witness :
    OrchInv (runOps envNoFail (fun e => e == "vnpy") orchDemo
      [OrchOp.syncOp [(keyDemo, cfgDemo)], OrchOp.stopAllOp]) := by
  refine C5_amended_invariant envNoFail _ _ orchDemo (fun _ => rfl) ?_
  intro k hk
  by_cases h : keyDemo = k
  · simp [orchDemo, hasKeyS, lookupS, h]
  · simp [orchDemo, hasKeyS, lookupS, h] at hk

/-- Claim C1 counterexample: the store raising during a hot-reload tick does
not keep the previous desired set — `load_configurations` returns `{}` and
the tick's `sync_workers` stops the running worker and clears the desired
set. -/
theorem C1_counterexample :
    hasKeyS orchDemo.workers keyDemo = true ∧
    hasKeyS (monitorTick envNoFail true (fun e => e == "vnpy") none [] orchDemo).workers
      keyDemo = false ∧
    (monitorTick envNoFail true (fun e => e == "vnpy") none [] orchDemo).configurations = [] := by
  decide

/-- Claim C1 (amended): on a load failure `load_configurations` logs and
returns the empty map, and the hot-reload tick then reconciles against the
empty desired set: every running worker is stopped (none is kept) and
`configurations` is cleared. -/
theorem C1_amended_load_failure (env : Env) (factories : String → Bool)
    (userFilter : Option String) (docs : List DbDoc) (st : Orch)
    (hstop : ∀ k, env.stopFails k = false) :
    (monitorTick env true factories userFilter docs st).workers = [] ∧
    (monitorTick env true factories userFilter docs st).configurations = [] := by
  constructor
  · apply eq_nil_of_lookupS
    intro k
    show lookupS (syncWorkers env st (loadConfigurations true factories userFilter docs)).1.workers
      k = none
    exact sync_lookup_of_not_target env st _ hstop rfl
  · show (syncWorkers env st (loadConfigurations true factories userFilter docs)).1.configurations
      = []
    exact sync_configurations env st _

/-- Concrete instance of the amended C1. -/
theorem C1_amended_load_failure_witness :
    (monitorTick envNoFail true (fun e => e == "vnpy") none [] orchDemo).workers = [] ∧
    (monitorTick envNoFail true (fun e => e == "vnpy") none [] orchDemo).configurations = [] :=
  C1_amended_load_failure envNoFail _ none [] orchDemo (fun _ => rfl)

/-- Claim C2 (code bug): `re.findall(r'\d{6}\.(SZ|SH|BJ)', message)` returns
the capture-group texts (`"SZ"`, `"SH"`, `"BJ"`), never the full
nine-character codes, so `self.symbol in stock_codes` can never hold for a
real symbol: a record whose message names the worker's own symbol (and whose
logger name does not) is rejected, where the claim, the spec and the filter's
own docstring say it must be allowed. -/
theorem C2_filter_rejects_own_symbol :
    SymbolLogFilter.filter
        { user_id := "u1", strategy_key := "turtle", symbol := "000001.SZ" }
        { name := "strategies.common", message := "order for 000001.SZ filled" } = false ∧
    findStockCodes "order for 000001.SZ filled".data = ["SZ"] := by
  decide

/-- Claim C9 (code bug): when the engine loop raises, `run`'s `except` arm
sets `ERROR` (line 250) but the `finally` arm (line 253) unconditionally
overwrites it with `STOPPED`; the worker therefore ends in `STOPPED`, not
`ERROR`, via the transition `ERROR → STOPPED` which is outside the claimed
legal set. -/
theorem C9_run_error_overwritten :
    runStateTrace true = [WorkerState.RUNNING, WorkerState.ERROR, WorkerState.STOPPED] ∧
    runFinalState true = WorkerState.STOPPED ∧
    runFinalState true ≠ WorkerState.ERROR := by
  decide

/-! ### Hash change detection (claim C6) -/

theorem lookupS_sortParams (P : List (String × PValue))
    (nd : (P.map Prod.fst).Nodup) (k : String) :
    lookupS (sortParams P) k = lookupS P k := by
  have hp : (sortParams P).Perm P := List.perm_insertionSort _ P
  have nd' : ((sortParams P).map Prod.fst).Nodup :=
    ((hp.map Prod.fst).nodup_iff).mpr nd
  exact lookupS_of_perm hp nd' k

theorem lookupS_middle {V : Type} (l₁ l₂ : List (String × V)) (k : String) (v : V)
    (hnot : k ∉ (l₁.map Prod.fst)) :
    lookupS (l₁ ++ (k, v) :: l₂) k = some v := by
  rw [lookupS_append]
  have h1 : lookupS l₁ k = none :=
    lookupS_eq_none_of_not_mem_keys l₁ (by simpa [keysS] using hnot)
  simp [h1, lookupS]

/-- Claim C6: changing any scalar field of `params` (same keys, one value
different), or `enabled`, or `engine`, changes the content hash; and one
reconciliation pass (with no stop/start failure) recreates exactly the
running workers whose key's config hash changed — a fresh worker built from
the new config replaces them — and leaves every other running worker's entry
untouched. -/
theorem C6_change_detection :
    (∀ c c' : StrategyConfig,
      c'.symbol = c.symbol → c'.strategy_key = c.strategy_key →
      c'.user_id = c.user_id → c'.engine_class = c.engine_class →
      ((∃ l₁ k v v' l₂, c.params = l₁ ++ (k, v) :: l₂ ∧ c'.params = l₁ ++ (k, v') :: l₂ ∧
          v ≠ v' ∧ ((l₁ ++ (k, v) :: l₂).map Prod.fst).Nodup ∧
          c'.enabled = c.enabled ∧ c'.engine = c.engine) ∨
       (c'.params = c.params ∧ c'.enabled ≠ c.enabled ∧ c'.engine = c.engine) ∨
       (c'.params = c.params ∧ c'.enabled = c.enabled ∧ c'.engine ≠ c.engine)) →
      c.get_hash ≠ c'.get_hash) ∧
    (∀ (env : Env) (st : Orch) (D : List (String × StrategyConfig)) (k : String)
      (w : Worker) (o n : StrategyConfig),
      (∀ k', env.stopFails k' = false) → (∀ k', env.startFails k' = false) →
      (∀ k' w', lookupS st.workers k' = some w' → w'.wid < st.nextId) →
      lookupS st.workers k = some w →
      lookupS st.configurations k = some o → lookupS D k = some n →
      ((o.get_hash ≠ n.get_hash →
        ∃ w', lookupS (syncWorkers env st D).1.workers k = some w' ∧ w' ≠ w ∧
          w'.key = k ∧ w'.config = n) ∧
       (o.get_hash = n.get_hash →
        lookupS (syncWorkers env st D).1.workers k = some w))) := by
  constructor
  · intro c c' hsym hsk huid hec hcase hEq
    rcases hcase with ⟨l₁, k, v, v', l₂, hp, hp', hvv, hnd, hen, heng⟩ | ⟨-, hen, -⟩ | ⟨-, -, heng⟩
    · have hparams : sortParams c.params = sortParams c'.params :=
        congrArg ConfigHash.params hEq
      have hkeys : c'.params.map Prod.fst = c.params.map Prod.fst := by
        rw [hp, hp']
        simp
      have hnd' : (c'.params.map Prod.fst).Nodup := by
        rw [hkeys, hp]
        exact hnd
      have hnotl₁ : k ∉ (l₁.map Prod.fst) := by
        intro hmem
        rw [List.map_append] at hnd
        rcases (List.nodup_append.mp hnd) with ⟨-, -, hdisj⟩
        exact hdisj hmem (by simp)
      have hv : lookupS c.params k = some v := by
        rw [hp]
        exact lookupS_middle l₁ l₂ k v hnotl₁
      have hv' : lookupS c'.params k = some v' := by
        rw [hp']
        exact lookupS_middle l₁ l₂ k v' hnotl₁
      have : lookupS c.params k = lookupS c'.params k := by
        rw [← lookupS_sortParams c.params (hp ▸ hnd) k,
          ← lookupS_sortParams c'.params hnd' k, hparams]
      rw [hv, hv'] at this
      exact hvv (Option.some.inj this)
    · have : c.enabled = c'.enabled := congrArg ConfigHash.enabled hEq
      exact hen this.symm
    · have : c.engine = c'.engine := congrArg ConfigHash.engine hEq
      exact heng this.symm
  · intro env st D k w o n hstop hstart hWF hw ho hn
    constructor
    · intro hh
      obtain ⟨w', hw', hk', hcfg, hwid⟩ :=
        sync_restarted env st D hw ho hn hh (hstop k) (hstart k)
      refine ⟨w', hw', ?_, hk', hcfg⟩
      intro heq
      have h1 : w.wid < st.nextId := hWF k w hw
      rw [heq] at hwid
      exact absurd hwid (by omega)
    · intro hh
      exact sync_kept env st D hw ho hn hh

/-- Concrete instance of C6: bumping `params.threshold` from 5 to 7 changes
the hash, and the pass replaces the running worker with a fresh one. -/
theorem C6_change_detection_witness :
    cfgDemo.get_hash ≠
      ({ cfgDemo with params := [("threshold", PValue.pint 7)] } : StrategyConfig).get_hash ∧
    (∃ w', lookupS (syncWorkers envNoFail orchDemo
        [(keyDemo, { cfgDemo with params := [("threshold", PValue.pint 7)] })]).1.workers
        keyDemo = some w' ∧ w' ≠ workerDemo ∧ w'.key = keyDemo ∧
        w'.config = { cfgDemo with params := [("threshold", PValue.pint 7)] }) := by
  constructor
  · exact C6_change_detection.1 cfgDemo _ rfl rfl rfl rfl
      (Or.inl ⟨[], "threshold", PValue.pint 5, PValue.pint 7, [],
        rfl, rfl, by decide, by decide, rfl, rfl⟩)
  · refine (C6_change_detection.2 envNoFail orchDemo _ keyDemo workerDemo cfgDemo _
      (fun _ => rfl) (fun _ => rfl) ?_ (by decide) (by decide) (by decide)).1 (by decide)
    intro k' w' h
    by_cases hk : keyDemo = k'
    · simp only [orchDemo, lookupS, if_pos hk] at h
      rw [← Option.some.inj h]
      decide
    · simp [orchDemo, lookupS, hk] at h

/-! ### The literal `"None_..."` worker key (claim C10) -/

/-- Claim C10: a document whose `user_id` is absent or `null` yields a
`StrategyConfig` with `user_id = None`, which `load_configurations` files
under the literal key `"None_<symbol>_<strategy_key>"`; the lifecycle
manager's `add_worker` computes the same literal key; and a reconciliation
pass registers the started worker under exactly that key, which is therefore
the handle every later lookup / stop / restart / HTTP query uses. -/
theorem C10_none_user_literal_key (doc : DbDoc) (factories : String → Bool)
    (s sk eng : String)
    (hu : doc.user_id = none) (hs : doc.symbol = some s) (hs' : s ≠ "")
    (hk : doc.strategy_key = some sk) (hk' : sk ≠ "")
    (he : doc.engine = some eng) (hf : factories eng = true)
    (hen : doc.enabled = some true) :
    loadConfigurations false factories none [doc]
      = [("None_" ++ s ++ "_" ++ sk, StrategyConfig.from_db_doc doc)] ∧
    addWorkerKey none s sk = "None_" ++ s ++ "_" ++ sk ∧
    (∃ w, lookupS (syncWorkers envNoFail { workers := [], configurations := [], nextId := 0 }
          (loadConfigurations false factories none [doc])).1.workers
        ("None_" ++ s ++ "_" ++ sk) = some w ∧
      w.key = "None_" ++ s ++ "_" ++ sk ∧ w.config = StrategyConfig.from_db_doc doc) := by
  have hkey : workerKey (StrategyConfig.from_db_doc doc) = "None_" ++ s ++ "_" ++ sk := by
    simp only [workerKey, StrategyConfig.from_db_doc, hu, hs, hk, pyStr, Option.getD_some]
    rfl
  have hload : loadConfigurations false factories none [doc]
      = [("None_" ++ s ++ "_" ++ sk, StrategyConfig.from_db_doc doc)] := by
    have hq : queryMatch none doc = true := by simp [queryMatch, hen]
    have hsym : (StrategyConfig.from_db_doc doc).symbol = s := by
      simp [StrategyConfig.from_db_doc, hs]
    have hsk2 : (StrategyConfig.from_db_doc doc).strategy_key = sk := by
      simp [StrategyConfig.from_db_doc, hk]
    have heng : (StrategyConfig.from_db_doc doc).engine = eng := by
      simp [StrategyConfig.from_db_doc, he]
    simp only [loadConfigurations, if_neg (by simp : ¬(false = true)), List.filter_cons,
      hq, if_pos, List.filter_nil, List.foldl_cons, List.foldl_nil, hsym, hsk2, heng,
      hs', hk', hf]
    simp [hs', hk', hkey, insertS]
  refine ⟨hload, rfl, ?_⟩
  rw [hload]
  obtain ⟨w, hw, hwk, hwc⟩ :=
    @sync_started_new envNoFail { workers := [], configurations := [], nextId := 0 }
      [("None_" ++ s ++ "_" ++ sk, StrategyConfig.from_db_doc doc)]
      ("None_" ++ s ++ "_" ++ sk) (StrategyConfig.from_db_doc doc)
      rfl (by simp [lookupS]) rfl
  exact ⟨w, hw, hwk, hwc⟩

/-- Concrete instance of C10. -/
theorem C10_none_user_literal_key_witness :
    loadConfigurations false (fun e => e == "vnpy") none
        [{ symbol := some "000001.SZ", strategy_key := some "turtle",
           params := some [], enabled := some true, user_id := none,
           engine := some "vnpy", engine_class := none }]
      = [("None_" ++ "000001.SZ" ++ "_" ++ "turtle",
          StrategyConfig.from_db_doc
            { symbol := some "000001.SZ", strategy_key := some "turtle",
              params := some [], enabled := some true, user_id := none,
              engine := some "vnpy", engine_class := none })] ∧
    addWorkerKey none "000001.SZ" "turtle" = "None_" ++ "000001.SZ" ++ "_" ++ "turtle" :=
  have h := C10_none_user_literal_key
    { symbol := some "000001.SZ", strategy_key := some "turtle",
      params := some [], enabled := some true, user_id := none,
      engine := some "vnpy", engine_class := none }
    (fun e => e == "vnpy") "000001.SZ" "turtle" "vnpy"
    rfl rfl (by decide) rfl (by decide) rfl (by decide) rfl
  ⟨h.1, h.2.1⟩

/-! ### Stream replay lemmas (claim C8) -/

theorem broadcastList_history {M : Type} (H : Nat) (ms : List M) (st : StreamState M) :
    (broadcastList H st ms).history = ms.foldl (pushHist H) st.history := by
  induction ms generalizing st with
  | nil => rfl
  | cons m ms ih =>
    rw [broadcastList, List.foldl_cons, ← broadcastList, ih, List.foldl_cons]
    rfl

theorem tail_append_of_ne_nil {α : Type} (l l' : List α) (h : l ≠ []) :
    l.tail ++ l' = (l ++ l').tail := by
  cases l with
  | nil => exact absurd rfl h
  | cons x xs => rfl

theorem foldl_pushHist {M : Type} (H : Nat) (ms : List M) (h : List M)
    (hh : h.length ≤ H) :
    ms.foldl (pushHist H) h = (h ++ ms).drop (h.length + ms.length - H) := by
  induction ms generalizing h with
  | nil => simp [Nat.sub_eq_zero_of_le hh]
  | cons m ms ih =>
    rw [List.foldl_cons]
    by_cases hl : h.length + 1 ≤ H
    · have hp : pushHist H h m = h ++ [m] := by
        simp only [pushHist, List.length_append, List.length_cons, List.length_nil]
        rw [if_neg (by simp; omega)]
      rw [hp, ih _ (by simp; omega)]
      rw [List.append_assoc, List.singleton_append]
      congr 1
      simp
      omega
    · have hlen : h.length = H := by omega
      have hp : pushHist H h m = (h ++ [m]).tail := by
        simp only [pushHist, List.length_append, List.length_cons, List.length_nil]
        rw [if_pos (by simp; omega)]
      have htl : ((h ++ [m]).tail).length ≤ H := by
        simp [List.length_tail]
        omega
      rw [hp, ih _ htl]
      have h1 : (h ++ [m]).tail ++ ms = (h ++ m :: ms).tail := by
        rw [tail_append_of_ne_nil _ _ (by simp), List.append_assoc, List.singleton_append]
      rw [h1, show (h ++ m :: ms).tail = (h ++ m :: ms).drop 1 from (List.drop_one _).symm,
        List.drop_drop]
      congr 1
      simp [List.length_tail]
      omega

theorem broadcastList_clients_nil {M : Type} (H : Nat) (ms : List M) (st : StreamState M)
    (h : st.clients = []) : (broadcastList H st ms).clients = [] := by
  induction ms generalizing st with
  | nil => exact h
  | cons m ms ih =>
    rw [broadcastList, List.foldl_cons, ← broadcastList]
    exact ih _ (by simp [broadcast, h])

theorem broadcastList_clients_conn {M : Type} (H : Nat) (ms : List M) (st : StreamState M)
    (cid : Nat) (L : List M) (h : st.clients = [(cid, true, L)]) :
    (broadcastList H st ms).clients = [(cid, true, L ++ ms)] := by
  induction ms generalizing st L with
  | nil => simpa using h
  | cons m ms ih =>
    rw [broadcastList, List.foldl_cons, ← broadcastList]
    rw [ih (broadcast H st m) (L ++ [m]) (by simp [broadcast, h])]
    simp

theorem broadcastList_clients_disc {M : Type} (H : Nat) (ms : List M) (st : StreamState M)
    (cid : Nat) (L : List M) (h : st.clients = [(cid, false, L)]) :
    (broadcastList H st ms).clients = [(cid, false, L)] := by
  induction ms generalizing st with
  | nil => exact h
  | cons m ms ih =>
    rw [broadcastList, List.foldl_cons, ← broadcastList]
    exact ih _ (by simp [broadcast, h])

/-- Claim C8: a subscriber that connects after `n = ms1.length` broadcasts
first receives exactly the last `min n H` records in broadcast order (the
history buffer), then every record broadcast while it stays connected
(`ms2`), and nothing broadcast after its disconnect (`ms3`). -/
theorem C8_stream_replay (M : Type) (H : Nat) (ms1 ms2 ms3 : List M) (cid : Nat) :
    (broadcastList H (disconnectClient (broadcastList H
        (connectClient (broadcastList H (initStream M) ms1) cid) ms2) cid) ms3).clients
      = [(cid, false, ms1.drop (ms1.length - H) ++ ms2)] ∧
    (ms1.drop (ms1.length - H)).length = min ms1.length H := by
  have h1 : (broadcastList H (initStream M) ms1).history = ms1.drop (ms1.length - H) := by
    rw [broadcastList_history]
    have := foldl_pushHist H ms1 [] (by simp)
    simpa using this
  have h2 : (connectClient (broadcastList H (initStream M) ms1) cid).clients
      = [(cid, true, ms1.drop (ms1.length - H))] := by
    simp [connectClient, broadcastList_clients_nil H ms1 (initStream M) rfl, h1]
  have h3 := broadcastList_clients_conn H ms2 _ cid _ h2
  have h4 : (disconnectClient (broadcastList H
      (connectClient (broadcastList H (initStream M) ms1) cid) ms2) cid).clients
      = [(cid, false, ms1.drop (ms1.length - H) ++ ms2)] := by
    simp [disconnectClient, h3]
  refine ⟨broadcastList_clients_disc H ms3 _ cid _ h4, ?_⟩
  simp [List.length_drop]
  omega

/-! ### Lifecycle at-most-once lemmas (claim C7) -/

theorem markEvent_other {st : LifeState} {e e' : LifecycleEvent} {now : DT}
    (h : e ≠ e') : (markEvent st e' now).lastEventTime e = st.lastEventTime e := by
  simp [markEvent, h]

theorem triggeredToday_congr {st₁ st₂ : LifeState} {e : LifecycleEvent} {now : DT}
    (h : st₁.lastEventTime e = st₂.lastEventTime e) :
    triggeredToday st₁ e now = triggeredToday st₂ e now := by
  unfold triggeredToday
  rw [h]

theorem checkEvent_marked {e e' : LifecycleEvent} {c : Bool} {now : DT}
    {acc : LifeState × List LifecycleEvent}
    (h : triggeredToday acc.1 e now = true) :
    (checkEvent e' c now acc).1.lastEventTime e = acc.1.lastEventTime e ∧
    (e ∈ (checkEvent e' c now acc).2 ↔ e ∈ acc.2) := by
  by_cases he : e = e'
  · subst he
    simp [checkEvent, h]
  · unfold checkEvent
    split
    · exact ⟨markEvent_other he, by simp [he]⟩
    · exact ⟨rfl, Iff.rfl⟩

theorem checkEvent_Q {e e' : LifecycleEvent} {c : Bool} {now : DT}
    {acc : LifeState × List LifecycleEvent}
    (hQ : e ∈ acc.2 → acc.1.lastEventTime e = some now) :
    e ∈ (checkEvent e' c now acc).2 →
      (checkEvent e' c now acc).1.lastEventTime e = some now := by
  unfold checkEvent
  split
  · intro h
    by_cases he : e = e'
    · subst he
      simp [markEvent]
    · rw [markEvent_other he]
      refine hQ ?_
      rcases List.mem_append.mp h with h | h
      · exact h
      · simp at h
        exact absurd h he
  · exact hQ

theorem checkEvent_not_fired {e e' : LifecycleEvent} {c : Bool} {now : DT}
    {acc : LifeState × List LifecycleEvent}
    (h : e ∉ (checkEvent e' c now acc).2) :
    (checkEvent e' c now acc).1.lastEventTime e = acc.1.lastEventTime e ∧ e ∉ acc.2 := by
  revert h
  unfold checkEvent
  split
  · intro h
    have he : e ≠ e' := fun hh => h (by simp [hh])
    exact ⟨markEvent_other he, fun hh => h (by simp [hh])⟩
  · intro h
    exact ⟨rfl, h⟩

theorem checkEvent_fires_shape (e' : LifecycleEvent) (c : Bool) (now : DT)
    (acc : LifeState × List LifecycleEvent) :
    (checkEvent e' c now acc).2 = acc.2 ∨ (checkEvent e' c now acc).2 = acc.2 ++ [e'] := by
  unfold checkEvent
  split
  · exact Or.inr rfl
  · exact Or.inl rfl

theorem tick_marked (a b : Bool) (st : LifeState) (now : DT) (e : LifecycleEvent)
    (h : triggeredToday st e now = true) :
    (tick a b st now).1.lastEventTime e = st.lastEventTime e ∧
    e ∉ (tick a b st now).2 := by
  unfold tick
  split
  · exact ⟨rfl, by simp⟩
  · have step : ∀ (e' : LifecycleEvent) (c : Bool) (acc : LifeState × List LifecycleEvent),
        triggeredToday acc.1 e now = true → e ∉ acc.2 →
        (triggeredToday (checkEvent e' c now acc).1 e now = true ∧
         (checkEvent e' c now acc).1.lastEventTime e = acc.1.lastEventTime e ∧
         e ∉ (checkEvent e' c now acc).2) := by
      intro e' c acc ht hmem
      obtain ⟨h1, h2⟩ := @checkEvent_marked e e' c now acc ht
      exact ⟨(triggeredToday_congr h1).trans ht, h1, fun hh => hmem (h2.mp hh)⟩
    obtain ⟨t1, m1, f1⟩ := step LifecycleEvent.pre_market_open
      (a && timeGE now 9 25 && timeLT now 9 30) (st, []) h (by simp)
    obtain ⟨t2, m2, f2⟩ := step LifecycleEvent.post_market_close
      (b && timeGE now 15 5 && timeLT now 15 10) _ t1 f1
    obtain ⟨t3, m3, f3⟩ := step LifecycleEvent.market_close
      (timeGE now 15 10 && timeLT now 15 15) _ t2 f2
    exact ⟨by rw [m3, m2, m1], f3⟩

theorem tick_fired_marker (a b : Bool) (st : LifeState) (now : DT) (e : LifecycleEvent)
    (h : e ∈ (tick a b st now).2) :
    (tick a b st now).1.lastEventTime e = some now := by
  unfold tick at h ⊢
  by_cases htd : (!(is_trading_day now)) = true
  · rw [if_pos htd] at h
    simp at h
  · rw [if_neg htd] at h ⊢
    exact checkEvent_Q (checkEvent_Q (checkEvent_Q (by simp))) h

theorem tick_not_fired (a b : Bool) (st : LifeState) (now : DT) (e : LifecycleEvent)
    (h : e ∉ (tick a b st now).2) :
    (tick a b st now).1.lastEventTime e = st.lastEventTime e := by
  unfold tick at h ⊢
  by_cases htd : (!(is_trading_day now)) = true
  · rw [if_pos htd]
  · rw [if_neg htd] at h ⊢
    obtain ⟨h3, h2'⟩ := checkEvent_not_fired h
    obtain ⟨h2, h1'⟩ := checkEvent_not_fired h2'
    obtain ⟨h1, -⟩ := checkEvent_not_fired h1'
    rw [h3, h2, h1]

theorem tick_count (a b : Bool) (st : LifeState) (now : DT) (e : LifecycleEvent) :
    ((tick a b st now).2.filter (fun x => decide (x = e))).length ≤ 1 := by
  unfold tick
  by_cases htd : (!(is_trading_day now)) = true
  · rw [if_pos htd]
    simp
  · rw [if_neg htd]
    rcases checkEvent_fires_shape LifecycleEvent.pre_market_open
      (a && timeGE now 9 25 && timeLT now 9 30) now (st, []) with h1 | h1 <;>
    rcases checkEvent_fires_shape LifecycleEvent.post_market_close
      (b && timeGE now 15 5 && timeLT now 15 10) now
      (checkEvent LifecycleEvent.pre_market_open
        (a && timeGE now 9 25 && timeLT now 9 30) now (st, [])) with h2 | h2 <;>
    rcases checkEvent_fires_shape LifecycleEvent.market_close
      (timeGE now 15 10 && timeLT now 15 15) now
      (checkEvent LifecycleEvent.post_market_close
        (b && timeGE now 15 5 && timeLT now 15 10) now
        (checkEvent LifecycleEvent.pre_market_open
          (a && timeGE now 9 25 && timeLT now 9 30) now (st, []))) with h3 | h3 <;>
    rw [h3, h2, h1] <;> cases e <;> simp

theorem filter_tag (t : DT) (d : Nat) (e : LifecycleEvent) (fires : List LifecycleEvent) :
    ((fires.map (fun ev => (t, ev))).filter
        (fun p => decide (p.1.date = d) && decide (p.2 = e))).length =
      if t.date = d then (fires.filter (fun x => decide (x = e))).length else 0 := by
  induction fires with
  | nil => simp
  | cons f fires ih =>
    by_cases ht : t.date = d
    · by_cases hf : f = e
      · simp [List.filter_cons, ht, hf, ih]
      · simp [List.filter_cons, ht, hf, ih]
    · simp [List.filter_cons, ht, ih]

theorem runTicks_no_date (a b : Bool) (e : LifecycleEvent) (d : Nat) (ts : List DT)
    (st : LifeState) (h : ∀ t ∈ ts, t.date ≠ d) :
    ((runTicks a b st ts).filter
        (fun p => decide (p.1.date = d) && decide (p.2 = e))).length = 0 := by
  induction ts generalizing st with
  | nil => simp [runTicks]
  | cons t ts ih =>
    simp only [runTicks]
    rw [List.filter_append, List.length_append, filter_tag,
      if_neg (h t (List.mem_cons_self t ts)),
      ih _ (fun t' ht' => h t' (List.mem_cons_of_mem t ht'))]

theorem runTicks_marked (a b : Bool) (e : LifecycleEvent) (d : Nat) (ts : List DT) :
    ∀ (st : LifeState) (m : DT), st.lastEventTime e = some m → m.date = d →
      ts.Pairwise (fun x y => x.date ≤ y.date) → (∀ t ∈ ts, d ≤ t.date) →
      ((runTicks a b st ts).filter
        (fun p => decide (p.1.date = d) && decide (p.2 = e))).length = 0 := by
  induction ts with
  | nil =>
    intro st m _ _ _ _
    simp [runTicks]
  | cons t ts ih =>
    intro st m hm hmd hp hge
    have hp' := (List.pairwise_cons.mp hp).2
    have hrel := (List.pairwise_cons.mp hp).1
    simp only [runTicks]
    rw [List.filter_append, List.length_append, filter_tag]
    by_cases ht : t.date = d
    · have htr : triggeredToday st e t = true := by
        simp [triggeredToday, hm, hmd, ht]
      obtain ⟨hmk, hnf⟩ := tick_marked a b st t e htr
      have hfil : ((tick a b st t).2).filter (fun x => decide (x = e)) = [] :=
        List.filter_eq_nil_iff.mpr (fun x hx => by
          simp only [decide_eq_true_eq]
          intro hxe
          exact hnf (hxe ▸ hx))
      rw [if_pos ht, hfil,
        ih _ m (by rw [hmk]; exact hm) hmd hp'
          (fun t' ht' => hge t' (List.mem_cons_of_mem t ht'))]
      simp
    · rw [if_neg ht,
        runTicks_no_date a b e d ts _ (fun t' ht' => by
          have h1 := hrel t' ht'
          have h2 : d < t.date :=
            Nat.lt_of_le_of_ne (hge t (List.mem_cons_self t ts)) (fun hh => ht hh.symm)
          omega)]

/-- Claim C7: over any wall-clock sequence of loop iterations whose dates
never decrease, each lifecycle event fires at most once per calendar date,
no matter how many iterations fall inside the event's time window. -/
theorem C7_at_most_once_daily (a b : Bool) (st : LifeState) (ts : List DT)
    (e : LifecycleEvent) (d : Nat)
    (hsort : ts.Pairwise (fun x y => x.date ≤ y.date)) :
    ((runTicks a b st ts).filter
      (fun p => decide (p.1.date = d) && decide (p.2 = e))).length ≤ 1 := by
  induction ts generalizing st with
  | nil => simp [runTicks]
  | cons t ts ih =>
    have hp' := (List.pairwise_cons.mp hsort).2
    have hrel := (List.pairwise_cons.mp hsort).1
    simp only [runTicks]
    rw [List.filter_append, List.length_append, filter_tag]
    by_cases ht : t.date = d
    · rw [if_pos ht]
      by_cases he : e ∈ (tick a b st t).2
      · have hmk := tick_fired_marker a b st t e he
        rw [runTicks_marked a b e d ts (tick a b st t).1 t hmk ht hp'
          (fun t' ht' => by have := hrel t' ht'; omega)]
        have := tick_count a b st t e
        omega
      · have hfil : ((tick a b st t).2).filter (fun x => decide (x = e)) = [] :=
          List.filter_eq_nil_iff.mpr (fun x hx => by
            simp only [decide_eq_true_eq]
            intro hxe
            exact he (hxe ▸ hx))
        rw [hfil]
        have := ih (tick a b st t).1 hp'
        simpa using this
    · rw [if_neg ht]
      have := ih (tick a b st t).1 hp'
      simpa using this

/-- Concrete instance of C7: three ticks inside the post-close window on the
same Monday fire `post_market_close` at most once. -/
theorem C7_at_most_once_daily_witness :
    ((runTicks true true { lastEventTime := fun _ => none }
        [{ date := 0, hour := 15, minute := 6 }, { date := 0, hour := 15, minute := 7 },
         { date := 0, hour := 15, minute := 8 }]).filter
      (fun p => decide (p.1.date = 0) &&
        decide (p.2 = LifecycleEvent.post_market_close))).length ≤ 1 :=
  C7_at_most_once_daily true true { lastEventTime := fun _ => none } _
    LifecycleEvent.post_market_close 0 (by simp)

end StrategyManager
